import Mathlib

/-!
Verification of the candidate-generation subsystem described by the
fonduer-tutorials repository.  The notebooks configure matchers, throttlers,
context spaces and a candidate extractor; the subsystem itself is specified in
the repository's design document.  Functions whose bodies appear in the
notebooks (`stg_temp_filter`, `common_prefix_length_diff`,
`part_file_name_conditions`, the corpus-splitting loop) are translated from
that source; components of the external framework are modelled from the
specification and marked as such.
-/

namespace FonduerTutorial

/-- Modelled from the spec: a Sentence is the leaf structural unit, with a
flattened document-order `position` and an ordered sequence of words. -/
structure Sentence where
  position : Nat
  words : List String
  deriving DecidableEq, Repr

/-- Modelled from the spec: a Document is the root entity, with a name and its
Sentences (listed in document order). -/
structure Document where
  name : String
  sentences : List Sentence
  deriving DecidableEq, Repr

/-- Modelled from the spec: a Span is a contiguous sub-sequence of words within
exactly one Sentence, identified by the owning document, the sentence position
and the half-open word range `[wordStart, wordEnd)`. -/
structure Span where
  docName : String
  sentencePos : Nat
  wordStart : Nat
  wordEnd : Nat
  deriving DecidableEq, Repr

/-- Modelled from the spec: the `OmniNgrams` context space restricted to one
Sentence — for every start offset and every window length up to `n_max` that
stays inside the sentence, the corresponding Span, enumerated start-major and
then by increasing length. -/
def sentenceNgrams (docName : String) (s : Sentence) (n_max : Nat) : List Span :=
  (List.range s.words.length).flatMap (fun start =>
    (List.range (min n_max (s.words.length - start))).map (fun j =>
      ⟨docName, s.position, start, start + j + 1⟩))

/-- Modelled from the spec: `enumerate(document, n_max)` of the `OmniNgrams`
context space — all n-gram Spans of every Sentence of the document, sentences
taken in document order. -/
def enumerate (d : Document) (n_max : Nat) : List Span :=
  d.sentences.flatMap (fun s => sentenceNgrams d.name s n_max)

/-- The deterministic enumeration order required by the spec: by sentence
document-order position, then by increasing start offset, then by increasing
length (equivalently, end offset). -/
def spanLt (a b : Span) : Prop :=
  a.sentencePos < b.sentencePos ∨
    (a.sentencePos = b.sentencePos ∧ (a.wordStart < b.wordStart ∨
      (a.wordStart = b.wordStart ∧ a.wordEnd < b.wordEnd)))

instance spanLtDecidable : DecidableRel spanLt := fun a b => by
  unfold spanLt
  exact inferInstance

/-- Modelled from the spec: the composable matcher hierarchy (`Union`,
`Intersect`, `Negation`, and primitive predicate matchers such as regex,
dictionary and lambda matchers, all of which decide a single span), realized as
the tagged-variant interpreter the design notes call for. -/
inductive Matcher where
  | lambda (f : Span → Bool)
  | union (ms : List Matcher)
  | intersect (ms : List Matcher)
  | negate (m : Matcher)

mutual

/-- Modelled from the spec: `matches(span)` — `Union` is logical OR across
members, `Intersect` logical AND, evaluated left to right. -/
def Matcher.matches : Matcher → Span → Bool
  | .lambda f, sp => f sp
  | .union ms, sp => anyMatches ms sp
  | .intersect ms, sp => allMatches ms sp
  | .negate m, sp => !(m.matches sp)

def anyMatches : List Matcher → Span → Bool
  | [], _ => false
  | m :: rest, sp => m.matches sp || anyMatches rest sp

def allMatches : List Matcher → Span → Bool
  | [], _ => true
  | m :: rest, sp => m.matches sp && allMatches rest sp

end

/-- Two spans share a start offset when they lie in the same document and
sentence and begin at the same word. -/
def sameStart (a b : Span) : Bool :=
  a.docName == b.docName && a.sentencePos == b.sentencePos &&
    a.wordStart == b.wordStart

/-- Modelled from the spec: `RegexMatchSpan` applied to the spans produced by
the Context Space; `rawMatch` is the raw regular-expression test on a span's
text.  With `longest_match_only` set, a span is kept only when no longer span
at the same start offset also satisfies the raw pattern. -/
def regexMatchFilter (rawMatch : Span → Bool) (longest_match_only : Bool)
    (spans : List Span) : List Span :=
  if longest_match_only then
    spans.filter (fun a => rawMatch a &&
      spans.all (fun b =>
        !(sameStart a b && rawMatch b && decide (a.wordEnd < b.wordEnd))))
  else
    spans.filter rawMatch

/-- Modelled from the spec: a Cell carries its table and
`(row_start, row_end, col_start, col_end)` index ranges. -/
structure CellRef where
  tableId : Nat
  rowStart : Nat
  rowEnd : Nat
  colStart : Nat
  colEnd : Nat
  deriving DecidableEq, Repr

/-- A candidate slot: the span together with its tabular context (the Cell its
sentence belongs to, when the sentence is tabular). -/
structure SlotSpan where
  span : Span
  cell : Option CellRef
  deriving DecidableEq, Repr

/-- Modelled from the spec: `same_table` — true iff both slot spans are tabular
and resolve to the same Table. -/
def same_table (part attr : SlotSpan) : Bool :=
  match part.cell, attr.cell with
  | some ca, some cb => ca.tableId == cb.tableId
  | _, _ => false

/-- Modelled from the spec: `is_horz_aligned` — true iff both slots are tabular
and their Cells' row index ranges overlap. -/
def is_horz_aligned (part attr : SlotSpan) : Bool :=
  match part.cell, attr.cell with
  | some ca, some cb =>
    decide (ca.rowStart ≤ cb.rowEnd) && decide (cb.rowStart ≤ ca.rowEnd)
  | _, _ => false

/-- Modelled from the spec: `is_vert_aligned` — true iff both slots are tabular
and their Cells' column index ranges overlap. -/
def is_vert_aligned (part attr : SlotSpan) : Bool :=
  match part.cell, attr.cell with
  | some ca, some cb =>
    decide (ca.colStart ≤ cb.colEnd) && decide (cb.colStart ≤ ca.colEnd)
  | _, _ => false

/-- The throttler of the candidates notebook: discard a candidate whose two
slots sit in the same Table without being horizontally or vertically aligned;
accept everything else. -/
def stg_temp_filter (part attr : SlotSpan) : Bool :=
  if same_table part attr then
    is_horz_aligned part attr || is_vert_aligned part attr
  else
    true

/-- A two-slot `Part_Attr` candidate: the relation name and one span per slot.
Identity is structural equality of this tuple. -/
structure Candidate where
  relName : String
  part : Span
  attr : Span
  deriving DecidableEq, Repr

/-- Modelled from the spec: phase 1 of the extractor for one slot — run the
context space over the document and retain the spans its matcher accepts. -/
def matchedSpans (d : Document) (m : Span → Bool) (n_max : Nat) : List Span :=
  (enumerate d n_max).filter m

/-- Modelled from the spec: phase 2 of the extractor — the per-document
cross-product of slot-1 and slot-2 matched spans, over a document set. -/
def rawCandidates (rel : String) (docs : List Document) (n1 n2 : Nat)
    (m1 m2 : Span → Bool) : List Candidate :=
  docs.flatMap (fun d =>
    (matchedSpans d m1 n1).flatMap (fun p =>
      (matchedSpans d m2 n2).map (fun a => ⟨rel, p, a⟩)))

/-- Modelled from the spec: one full extraction pass — cross-product, then the
throttler, then identity-based deduplication. -/
def extractOnce (rel : String) (docs : List Document) (n1 n2 : Nat)
    (m1 m2 : Span → Bool) (throttler : Candidate → Bool) : List Candidate :=
  ((rawCandidates rel docs n1 n2 m1 m2).filter throttler).dedup

/-- Modelled from the spec: `apply` with a `clear` flag — with `clear` the
stored set is replaced by a fresh extraction; without it, only candidates whose
identity is not already stored are appended. -/
def extractorApply (clear : Bool) (store : List Candidate) (rel : String)
    (docs : List Document) (n1 n2 : Nat) (m1 m2 : Span → Bool)
    (throttler : Candidate → Bool) : List Candidate :=
  if clear then
    extractOnce rel docs n1 n2 m1 m2 throttler
  else
    store ++ (extractOnce rel docs n1 n2 m1 m2 throttler).filter
      (fun c => decide (c ∉ store))

/-- Modelled from the spec: evaluation of a user-supplied fallible predicate
(matcher, throttler, or lambda) over a stream of items — the first raised
error aborts the whole stream instead of being treated as a non-match. -/
def filterE {α ε : Type} (p : α → Except ε Bool) : List α → Except ε (List α)
  | [] => Except.ok []
  | a :: rest =>
    match p a with
    | Except.error e => Except.error e
    | Except.ok b =>
      match filterE p rest with
      | Except.error e => Except.error e
      | Except.ok l => Except.ok (if b then a :: l else l)

/-- Modelled from the spec: per-document extraction with fallible user
predicates, running the full MATCH → cross-product → THROTTLE pipeline — an
error raised by either slot's matcher or by the throttler aborts the
document's batch. -/
def extractDocE {ε : Type} (rel : String) (d : Document) (n1 n2 : Nat)
    (m1 m2 : Span → Except ε Bool) (thr : Candidate → Except ε Bool) :
    Except ε (List Candidate) :=
  match filterE m1 (enumerate d n1) with
  | Except.error e => Except.error e
  | Except.ok ps =>
    match filterE m2 (enumerate d n2) with
    | Except.error e => Except.error e
    | Except.ok as =>
      filterE thr (ps.flatMap (fun p => as.map (fun a => ⟨rel, p, a⟩)))

/-- The `splits = (0.8, 0.9)` tuple of the corpus-splitting cell. -/
def splits : ℚ × ℚ := (4 / 5, 9 / 10)

/-- The name-sorted document list (`docs` is queried ordered by name and
`data` is sorted by name again before the loop). -/
def sortedByName (docNames : List String) : List String :=
  docNames.mergeSort (fun a b => decide (a ≤ b))

/-- The three split sets of the corpus-splitting cell. -/
structure SplitState where
  train : List String
  dev : List String
  test : List String
  deriving DecidableEq, Repr

/-- One iteration of the corpus-splitting loop: a document is appended to the
train split when its enumeration index is below `splits[0] * ld`; nothing else
is ever modified. -/
def splitStep (ld : Nat) (st : SplitState) (p : Nat × String) : SplitState :=
  if (p.1 : ℚ) < splits.1 * ld then
    ⟨st.train ++ [p.2], st.dev, st.test⟩
  else
    st

/-- The corpus-splitting cell: enumerate the name-sorted documents and run the
loop body starting from three empty sets. -/
def corpusSplit (docNames : List String) : SplitState :=
  (sortedByName docNames).enum.foldl
    (splitStep (sortedByName docNames).length) ⟨[], [], []⟩

/-- Python's `str.split(sep)` on a single-character separator, over the
character list of the string. -/
def splitOnChar (sep : Char) : List Char → List (List Char)
  | [] => [[]]
  | c :: rest =>
    if c = sep then
      [] :: splitOnChar sep rest
    else
      match splitOnChar sep rest with
      | [] => [c] :: []
      | h :: t => (c :: h) :: t

/-- The notebook's `common_prefix_length_diff`: scan the common prefix of the
two strings; at the first mismatch return `min(len1, len2) - i`, and return 0
when one string is a prefix of the other. -/
def common_prefix_length_diff : List Char → List Char → Nat
  | c1 :: t1, c2 :: t2 =>
    if c1 = c2 then
      common_prefix_length_diff t1 t2
    else
      min (t1.length + 1) (t2.length + 1)
  | _, _ => 0

/-- The notebook's `part_file_name_conditions` over the owning document's name
and the span's text: reject unless the file name splits into exactly two parts
on an underscore; reject span text starting with a hyphen; otherwise require a
digit, a letter, and a common-prefix distance of at most 2 between the file
name's second part and the hyphen-stripped span text. -/
def part_file_name_conditions (docName spanText : List Char) : Bool :=
  if (splitOnChar '_' docName).length ≠ 2 then
    false
  else if spanText.head? = some '-' then
    false
  else
    (spanText.filter (fun c => c != '-')).any Char.isDigit &&
      (spanText.filter (fun c => c != '-')).any Char.isAlpha &&
      decide (common_prefix_length_diff ((splitOnChar '_' docName).getD 1 [])
        (spanText.filter (fun c => c != '-')) ≤ 2)

/-- Concrete sentence used by the concrete-instance theorems. -/
def sentW1 : Sentence := ⟨0, ["2N3906", "150"]⟩

/-- Concrete sentence used by the concrete-instance theorems. -/
def sentW2 : Sentence := ⟨1, ["NPN"]⟩

/-- Concrete document used by the concrete-instance theorems. -/
def docW : Document := ⟨"AUKCS04635-1", [sentW1, sentW2]⟩

/-- Concrete span used by the concrete-instance theorems. -/
def spanW1 : Span := ⟨"AUKCS04635-1", 0, 0, 1⟩

/-- Concrete span used by the concrete-instance theorems. -/
def spanW2 : Span := ⟨"AUKCS04635-1", 0, 0, 2⟩

/-- Concrete cell used by the concrete-instance theorems. -/
def cellW1 : CellRef := ⟨0, 0, 0, 0, 0⟩

/-- Concrete cell used by the concrete-instance theorems. -/
def cellW2 : CellRef := ⟨0, 2, 3, 2, 3⟩

/-- Concrete tabular slot used by the concrete-instance theorems. -/
def slotW1 : SlotSpan := ⟨spanW1, some cellW1⟩

/-- Concrete tabular slot used by the concrete-instance theorems. -/
def slotW2 : SlotSpan := ⟨⟨"AUKCS04635-1", 1, 0, 1⟩, some cellW2⟩

/-- Concrete never-raising, always-accepting matcher used by the
concrete-instance theorems. -/
def okMatcher : Span → Except String Bool :=
  fun _ => Except.ok true

/-- Concrete always-raising throttler used by the concrete-instance
theorems. -/
def raisingThrottler : Candidate → Except String Bool :=
  fun _ => Except.error "boom"

end FonduerTutorial

namespace FonduerTutorial

theorem mem_sentenceNgrams {dn : String} {s : Sentence} {n : Nat} {sp : Span} :
    sp ∈ sentenceNgrams dn s n ↔
      sp.docName = dn ∧ sp.sentencePos = s.position ∧
      sp.wordStart < sp.wordEnd ∧ sp.wordEnd ≤ s.words.length ∧
      sp.wordEnd - sp.wordStart ≤ n := by
  simp only [sentenceNgrams, List.mem_flatMap, List.mem_map, List.mem_range]
  constructor
  · rintro ⟨start, hstart, j, hj, rfl⟩
    refine ⟨rfl, rfl, ?_, ?_, ?_⟩ <;> dsimp only <;> omega
  · rintro ⟨h1, h2, h3, h4, h5⟩
    refine ⟨sp.wordStart, by omega, sp.wordEnd - sp.wordStart - 1, by omega, ?_⟩
    obtain ⟨a, b, c, d⟩ := sp
    dsimp only at h1 h2 h3 h4 h5 ⊢
    simp only [Span.mk.injEq]
    exact ⟨h1.symm, h2.symm, trivial, by omega⟩

theorem pairwise_sentenceNgrams (dn : String) (s : Sentence) (n : Nat) :
    (sentenceNgrams dn s n).Pairwise spanLt := by
  unfold sentenceNgrams
  rw [List.pairwise_flatMap]
  constructor
  · intro start _
    rw [List.pairwise_map]
    refine List.Pairwise.imp ?_ (List.pairwise_lt_range _)
    intro a b hab
    refine Or.inr ⟨rfl, Or.inr ⟨rfl, ?_⟩⟩
    show start + a + 1 < start + b + 1
    omega
  · refine List.Pairwise.imp ?_ (List.pairwise_lt_range _)
    intro a b hab x hx y hy
    simp only [List.mem_map, List.mem_range] at hx hy
    obtain ⟨i, _, rfl⟩ := hx
    obtain ⟨j, _, rfl⟩ := hy
    exact Or.inr ⟨rfl, Or.inl hab⟩

theorem mem_enumerate {d : Document} {n : Nat} {sp : Span} :
    sp ∈ enumerate d n ↔ ∃ s ∈ d.sentences, sp ∈ sentenceNgrams d.name s n := by
  simp only [enumerate, List.mem_flatMap]

theorem pairwise_enumerate (d : Document) (n : Nat)
    (hd : d.sentences.Pairwise (fun s t => s.position < t.position)) :
    (enumerate d n).Pairwise spanLt := by
  unfold enumerate
  rw [List.pairwise_flatMap]
  refine ⟨fun s _ => pairwise_sentenceNgrams d.name s n, hd.imp ?_⟩
  intro s t hst x hx y hy
  have hx2 := (mem_sentenceNgrams.mp hx).2.1
  have hy2 := (mem_sentenceNgrams.mp hy).2.1
  exact Or.inl (by omega)

/-- C4: `enumerate(document, n_max)` yields, for every Sentence of the
document, for every window length `k` from 1 to `min(n_max, word_count)`, for
every valid start offset, the Span covering words `[start, start + k)`, and
the yielded sequence is ordered by sentence document-order position, then by
increasing start offset, then by increasing length. -/
theorem omniNgrams_enumerate_spec (d : Document) (n_max : Nat)
    (hd : d.sentences.Pairwise (fun s t => s.position < t.position)) :
    (∀ sp : Span, sp ∈ enumerate d n_max ↔
      ∃ s ∈ d.sentences, sp.docName = d.name ∧ sp.sentencePos = s.position ∧
        ∃ k, 1 ≤ k ∧ k ≤ min n_max s.words.length ∧
          sp.wordStart + k ≤ s.words.length ∧ sp.wordEnd = sp.wordStart + k) ∧
    (enumerate d n_max).Pairwise spanLt := by
  refine ⟨fun sp => ?_, pairwise_enumerate d n_max hd⟩
  rw [mem_enumerate]
  constructor
  · rintro ⟨s, hs, hsp⟩
    obtain ⟨h1, h2, h3, h4, h5⟩ := mem_sentenceNgrams.mp hsp
    exact ⟨s, hs, h1, h2, sp.wordEnd - sp.wordStart,
      by omega, by omega, by omega, by omega⟩
  · rintro ⟨s, hs, h1, h2, k, hk1, hk2, hk3, hk4⟩
    exact ⟨s, hs, mem_sentenceNgrams.mpr ⟨h1, h2, by omega, by omega, by omega⟩⟩

/-- Concrete instance of `omniNgrams_enumerate_spec` on a two-sentence
document. -/
theorem omniNgrams_enumerate_spec_witness :
    (enumerate docW 2).Pairwise spanLt :=
  (omniNgrams_enumerate_spec docW 2 (by decide)).2

/-- C7: every span yielded by the context space lies entirely within a single
Sentence of the document — its word range is nonempty and its end offset is at
most the owning sentence's word count. -/
theorem omniNgrams_no_cross_sentence (d : Document) (n_max : Nat) :
    ∀ sp ∈ enumerate d n_max, ∃ s ∈ d.sentences,
      sp.sentencePos = s.position ∧ sp.wordStart < sp.wordEnd ∧
      sp.wordEnd ≤ s.words.length := by
  intro sp hsp
  obtain ⟨s, hs, h⟩ := mem_enumerate.mp hsp
  obtain ⟨_, h2, h3, h4, _⟩ := mem_sentenceNgrams.mp h
  exact ⟨s, hs, h2, h3, h4⟩

/-- Concrete instance of `omniNgrams_no_cross_sentence` at a one-word span of
the concrete document. -/
theorem omniNgrams_no_cross_sentence_witness :
    ∃ s ∈ docW.sentences, spanW1.sentencePos = s.position ∧
      spanW1.wordStart < spanW1.wordEnd ∧ spanW1.wordEnd ≤ s.words.length :=
  omniNgrams_no_cross_sentence docW 2 spanW1 (by decide)

/-- C5: `Union` is pointwise logical OR of its members and `Intersect` is
pointwise logical AND, also for the three-member `Union` used to build
`part_matcher`. -/
theorem union_intersect_algebra (A B C : Matcher) (sp : Span) :
    (Matcher.union [A, B]).matches sp = (A.matches sp || B.matches sp) ∧
    (Matcher.intersect [A, B]).matches sp = (A.matches sp && B.matches sp) ∧
    (Matcher.union [A, B, C]).matches sp =
      (A.matches sp || B.matches sp || C.matches sp) := by
  refine ⟨?_, ?_, ?_⟩ <;>
    simp [Matcher.matches, anyMatches, allMatches, Bool.or_assoc]

theorem mem_regexMatchFilter_longest {rawMatch : Span → Bool}
    {spans : List Span} {u : Span} :
    u ∈ regexMatchFilter rawMatch true spans ↔
      u ∈ spans ∧ rawMatch u = true ∧
      ∀ t ∈ spans, sameStart u t = true → rawMatch t = true →
        t.wordEnd ≤ u.wordEnd := by
  simp only [regexMatchFilter, if_pos, List.mem_filter, Bool.and_eq_true,
    List.all_eq_true]
  constructor
  · rintro ⟨hu, hru, hall⟩
    refine ⟨hu, hru, fun t ht hst hrt => ?_⟩
    have h := hall t ht
    simp only [hst, hrt, Bool.true_and, Bool.not_eq_eq_eq_not, Bool.not_true,
      Bool.and_eq_false_iff, decide_eq_false_iff_not] at h
    exact Nat.not_lt.mp h
  · rintro ⟨hu, hru, himp⟩
    refine ⟨hu, hru, fun t ht => ?_⟩
    by_cases hst : sameStart u t = true
    · by_cases hrt : rawMatch t = true
      · have := himp t ht hst hrt
        simp [hst, hrt, Nat.not_lt.mpr this]
      · simp [Bool.eq_false_iff.mpr hrt]
    · simp [Bool.eq_false_iff.mpr hst]

/-- C3: with `longest_match_only`, a matching span is kept exactly when no
longer span at the same start offset also satisfies the raw pattern; every
strictly shorter match at an occupied start offset is suppressed; and a match
with no competitor at its start offset is always retained. -/
theorem longest_match_only_spec (rawMatch : Span → Bool) (spans : List Span)
    (a : Span) (ha : a ∈ spans) (hmatch : rawMatch a = true) :
    (a ∈ regexMatchFilter rawMatch true spans ↔
      ∀ t ∈ spans, sameStart a t = true → rawMatch t = true →
        t.wordEnd ≤ a.wordEnd) ∧
    (∀ t ∈ spans, sameStart t a = true → rawMatch t = true →
      t.wordEnd < a.wordEnd → t ∉ regexMatchFilter rawMatch true spans) ∧
    ((∀ t ∈ spans, sameStart a t = true → t = a) →
      a ∈ regexMatchFilter rawMatch true spans) := by
  refine ⟨?_, ?_, ?_⟩
  · rw [mem_regexMatchFilter_longest]
    exact ⟨fun h => h.2.2, fun h => ⟨ha, hmatch, h⟩⟩
  · intro t ht hst hrt hlt hmem
    obtain ⟨-, -, hall⟩ := mem_regexMatchFilter_longest.mp hmem
    have := hall a ha hst hmatch
    omega
  · intro hsolo
    rw [mem_regexMatchFilter_longest]
    refine ⟨ha, hmatch, fun t ht hst _ => ?_⟩
    rw [hsolo t ht hst]

/-- Concrete instance of `longest_match_only_spec`: a one-word match is
suppressed by the two-word match at the same start offset. -/
theorem longest_match_only_spec_witness :
    spanW1 ∉ regexMatchFilter (fun _ => true) true [spanW1, spanW2] :=
  (longest_match_only_spec (fun _ => true) [spanW1, spanW2] spanW2
      (by decide) rfl).2.1 spanW1 (by decide) (by decide) rfl (by decide)

/-- C2: the notebook's throttler rejects every candidate whose two slots lie
in the same Table with non-overlapping row ranges and non-overlapping column
ranges, and unconditionally accepts every candidate whose slots are not in the
same table. -/
theorem stg_temp_filter_spec (part attr : SlotSpan) :
    (∀ ca cb, part.cell = some ca → attr.cell = some cb →
      ca.tableId = cb.tableId →
      (ca.rowEnd < cb.rowStart ∨ cb.rowEnd < ca.rowStart) →
      (ca.colEnd < cb.colStart ∨ cb.colEnd < ca.colStart) →
      stg_temp_filter part attr = false) ∧
    (same_table part attr = false → stg_temp_filter part attr = true) := by
  constructor
  · intro ca cb hca hcb htab hrow hcol
    rw [stg_temp_filter, if_pos (by rw [same_table, hca, hcb]; exact beq_iff_eq.mpr htab)]
    rw [is_horz_aligned, is_vert_aligned, hca, hcb]
    simp only [Bool.or_eq_false_iff, Bool.and_eq_false_iff,
      decide_eq_false_iff_not, Nat.not_le]
    omega
  · intro h
    rw [stg_temp_filter, if_neg]
    rw [h]
    exact Bool.false_ne_true

/-- Concrete instance of `stg_temp_filter_spec`: two cells of the same table
with disjoint row and column ranges are rejected. -/
theorem stg_temp_filter_spec_witness : stg_temp_filter slotW1 slotW2 = false :=
  (stg_temp_filter_spec slotW1 slotW2).1 cellW1 cellW2 rfl rfl rfl
    (Or.inl (by decide)) (Or.inl (by decide))

theorem matchedSpans_docName {d : Document} {m : Span → Bool} {n : Nat}
    {sp : Span} (h : sp ∈ matchedSpans d m n) : sp.docName = d.name := by
  rw [matchedSpans, List.mem_filter] at h
  obtain ⟨s, -, hs⟩ := mem_enumerate.mp h.1
  exact (mem_sentenceNgrams.mp hs).1

/-- C1: before throttling, the candidate list is exactly the per-document
Cartesian product of slot-1 and slot-2 matched spans — every matched slot-1
span of a document is paired with every matched slot-2 span of the same
document, with no same-sentence restriction, and no pair crosses document
boundaries. -/
theorem cross_product_complete (rel : String) (docs : List Document)
    (n1 n2 : Nat) (m1 m2 : Span → Bool) :
    (∀ c : Candidate, c ∈ rawCandidates rel docs n1 n2 m1 m2 ↔
      ∃ d ∈ docs, c.relName = rel ∧
        c.part ∈ matchedSpans d m1 n1 ∧ c.attr ∈ matchedSpans d m2 n2) ∧
    (∀ c ∈ rawCandidates rel docs n1 n2 m1 m2,
      c.part.docName = c.attr.docName) := by
  have hmem : ∀ c : Candidate, c ∈ rawCandidates rel docs n1 n2 m1 m2 ↔
      ∃ d ∈ docs, c.relName = rel ∧
        c.part ∈ matchedSpans d m1 n1 ∧ c.attr ∈ matchedSpans d m2 n2 := by
    intro c
    simp only [rawCandidates, List.mem_flatMap, List.mem_map]
    constructor
    · rintro ⟨d, hd, p, hp, a, ha, rfl⟩
      exact ⟨d, hd, rfl, hp, ha⟩
    · rintro ⟨d, hd, hrel, hp, ha⟩
      obtain ⟨r, p, a⟩ := c
      exact ⟨d, hd, p, hp, a, ha, by rw [show r = rel from hrel]⟩
  refine ⟨hmem, fun c hc => ?_⟩
  obtain ⟨d, -, -, hp, ha⟩ := (hmem c).mp hc
  rw [matchedSpans_docName hp, matchedSpans_docName ha]

/-- Concrete instance of `cross_product_complete`: a candidate produced by the
extractor over the concrete document has both slots in that document. -/
theorem cross_product_complete_witness :
    (⟨"Part_Attr", spanW1, spanW1⟩ : Candidate).part.docName =
      (⟨"Part_Attr", spanW1, spanW1⟩ : Candidate).attr.docName :=
  (cross_product_complete "Part_Attr" [docW] 1 1
    (fun _ => true) (fun _ => true)).2 ⟨"Part_Attr", spanW1, spanW1⟩ (by decide)

/-- C6: extraction is idempotent under identity-based deduplication — a second
`clear` run reproduces exactly the stored candidate list, a `clear=false` run
never stores a candidate slot-identical to an existing one, and a single run
stores each slot-span tuple exactly once. -/
theorem extraction_idempotent (store : List Candidate) (rel : String)
    (docs : List Document) (n1 n2 : Nat) (m1 m2 : Span → Bool)
    (throttler : Candidate → Bool) (hstore : store.Nodup) :
    extractorApply true (extractorApply true store rel docs n1 n2 m1 m2 throttler)
        rel docs n1 n2 m1 m2 throttler =
      extractorApply true store rel docs n1 n2 m1 m2 throttler ∧
    (extractorApply false store rel docs n1 n2 m1 m2 throttler).Nodup ∧
    (∀ c : Candidate,
      (extractOnce rel docs n1 n2 m1 m2 throttler).count c ≤ 1) := by
  refine ⟨rfl, ?_, ?_⟩
  · rw [extractorApply, if_neg Bool.false_ne_true, List.nodup_append]
    refine ⟨hstore, List.Nodup.filter _ (List.nodup_dedup _), ?_⟩
    intro c hc hcf
    rw [List.mem_filter] at hcf
    exact absurd hc (of_decide_eq_true hcf.2)
  · intro c
    exact List.nodup_iff_count_le_one.mp (List.nodup_dedup _) c

/-- Concrete instance of `extraction_idempotent`: extraction into an empty
store over the concrete document yields a duplicate-free candidate list. -/
theorem extraction_idempotent_witness :
    (extractorApply false [] "Part_Attr" [docW] 1 1 (fun _ => true)
      (fun _ => true) (fun _ => true)).Nodup :=
  (extraction_idempotent [] "Part_Attr" [docW] 1 1 (fun _ => true)
    (fun _ => true) (fun _ => true) List.nodup_nil).2.1

theorem filterE_error {α ε : Type} {p : α → Except ε Bool} :
    ∀ {l : List α}, (∃ a ∈ l, ∃ e, p a = Except.error e) →
      ∃ e, filterE p l = Except.error e := by
  intro l
  induction l with
  | nil => rintro ⟨a, ha, -⟩; cases ha
  | cons a rest ih =>
    rintro ⟨x, hx, e, he⟩
    cases hpa : p a with
    | error e2 => exact ⟨e2, by rw [filterE, hpa]⟩
    | ok b =>
      cases hx with
      | head => rw [hpa] at he; cases he
      | tail _ hx2 =>
        obtain ⟨e3, h3⟩ := ih ⟨x, hx2, e, he⟩
        exact ⟨e3, by rw [filterE, hpa, h3]⟩

theorem filterE_ok {α ε : Type} {p : α → Except ε Bool} {f : α → Bool}
    (hp : ∀ a, p a = Except.ok (f a)) :
    ∀ l : List α, filterE p l = Except.ok (l.filter f) := by
  intro l
  induction l with
  | nil => rfl
  | cons a rest ih => rw [filterE, hp a, ih, List.filter_cons]

/-- C8: an exception raised by a user-supplied predicate during extraction —
the slot-1 matcher, the slot-2 matcher, or the throttler — is propagated,
aborting the document's batch; an errored extraction is never an `ok` result;
and error-free predicates yield exactly the throttled cross-product, so an
error is never treated as a non-match. -/
theorem user_predicate_error_propagates {ε : Type} (rel : String)
    (d : Document) (n1 n2 : Nat) (m1 m2 : Span → Except ε Bool)
    (thr : Candidate → Except ε Bool) :
    ((∃ sp ∈ enumerate d n1, ∃ e, m1 sp = Except.error e) →
      ∃ e, extractDocE rel d n1 n2 m1 m2 thr = Except.error e) ∧
    ((∃ sp ∈ enumerate d n2, ∃ e, m2 sp = Except.error e) →
      ∃ e, extractDocE rel d n1 n2 m1 m2 thr = Except.error e) ∧
    (∀ f1 f2 : Span → Bool,
      (∀ sp, m1 sp = Except.ok (f1 sp)) → (∀ sp, m2 sp = Except.ok (f2 sp)) →
      (∃ c ∈ ((enumerate d n1).filter f1).flatMap (fun p =>
          ((enumerate d n2).filter f2).map (fun a => ⟨rel, p, a⟩)),
        ∃ e, thr c = Except.error e) →
      ∃ e, extractDocE rel d n1 n2 m1 m2 thr = Except.error e) ∧
    ((∃ e, extractDocE rel d n1 n2 m1 m2 thr = Except.error e) →
      ∀ cs : List Candidate,
        extractDocE rel d n1 n2 m1 m2 thr ≠ Except.ok cs) ∧
    (∀ (f1 f2 : Span → Bool) (ft : Candidate → Bool),
      (∀ sp, m1 sp = Except.ok (f1 sp)) → (∀ sp, m2 sp = Except.ok (f2 sp)) →
      (∀ c, thr c = Except.ok (ft c)) →
      extractDocE rel d n1 n2 m1 m2 thr =
        Except.ok ((((enumerate d n1).filter f1).flatMap (fun p =>
          ((enumerate d n2).filter f2).map (fun a => ⟨rel, p, a⟩))).filter
            ft)) := by
  refine ⟨?_, ?_, ?_, ?_, ?_⟩
  · intro h
    obtain ⟨e, he⟩ := filterE_error h
    exact ⟨e, by rw [extractDocE, he]⟩
  · intro h
    obtain ⟨e, he⟩ := filterE_error h
    cases hm1 : filterE m1 (enumerate d n1) with
    | error e1 => exact ⟨e1, by rw [extractDocE, hm1]⟩
    | ok ps => exact ⟨e, by rw [extractDocE, hm1, he]⟩
  · intro f1 f2 h1 h2 hthr
    obtain ⟨e, he⟩ := filterE_error hthr
    refine ⟨e, ?_⟩
    simp only [extractDocE, filterE_ok h1, filterE_ok h2]
    exact he
  · rintro ⟨e, he⟩ cs hcs
    rw [he] at hcs
    cases hcs
  · intro f1 f2 ft h1 h2 h3
    simp only [extractDocE, filterE_ok h1, filterE_ok h2, filterE_ok h3]

/-- Concrete instance of `user_predicate_error_propagates`: with error-free
matchers and an always-raising throttler, per-document extraction never
returns an `ok` batch. -/
theorem user_predicate_error_propagates_witness :
    extractDocE "Part_Attr" docW 1 1 okMatcher okMatcher raisingThrottler ≠
      Except.ok [] :=
  (user_predicate_error_propagates "Part_Attr" docW 1 1 okMatcher okMatcher
      raisingThrottler).2.2.2.1
    ((user_predicate_error_propagates "Part_Attr" docW 1 1 okMatcher okMatcher
        raisingThrottler).2.2.1 (fun _ => true) (fun _ => true)
      (fun _ => rfl) (fun _ => rfl)
      ⟨⟨"Part_Attr", spanW1, spanW1⟩, by decide, "boom", rfl⟩) []

theorem foldl_splitStep (ld : Nat) (l : List (Nat × String)) :
    ∀ st : SplitState,
      l.foldl (splitStep ld) st =
        ⟨st.train ++
          (l.filter (fun p => decide ((p.1 : ℚ) < splits.1 * ld))).map Prod.snd,
          st.dev, st.test⟩ := by
  induction l with
  | nil => intro st; simp
  | cons p rest ih =>
    intro st
    rw [List.foldl_cons, List.filter_cons]
    by_cases h : (p.1 : ℚ) < splits.1 * ld
    · rw [if_pos (decide_eq_true h), ih, splitStep, if_pos h]
      simp
    · rw [if_neg (by simpa using h), ih, splitStep, if_neg h]

/-- C9: in the corpus-splitting cell, a document is added to `train_docs`
exactly when its zero-based index in the name-sorted document list is strictly
below `splits[0]` (0.8) times the document count, and `dev_docs` and
`test_docs` are never added to — they stay empty. -/
theorem corpusSplit_spec (docNames : List String) :
    (corpusSplit docNames).train =
      ((sortedByName docNames).enum.filter (fun p =>
        decide ((p.1 : ℚ) < splits.1 * (sortedByName docNames).length))).map
          Prod.snd ∧
    (corpusSplit docNames).dev = [] ∧ (corpusSplit docNames).test = [] := by
  rw [corpusSplit, foldl_splitStep]
  exact ⟨by simp, rfl, rfl⟩

theorem splitOnChar_eq_single {sep : Char} :
    ∀ {l : List Char}, sep ∉ l → splitOnChar sep l = [l] := by
  intro l
  induction l with
  | nil => intro _; rfl
  | cons c rest ih =>
    intro h
    rw [splitOnChar,
      if_neg (fun hc => h (List.mem_cons.mpr (Or.inl hc.symm))),
      ih (fun hm => h (List.mem_cons_of_mem c hm))]

/-- C10: `part_file_name_conditions` returns `False` whenever the document
name does not split into exactly two parts on an underscore (in particular
whenever the name has no underscore) or the span text begins with a hyphen,
and returns `True` only when the hyphen-stripped span text contains a digit
and a letter and its common-prefix distance to the name's second part is at
most 2. -/
theorem part_file_name_conditions_spec (docName spanText : List Char) :
    ((splitOnChar '_' docName).length ≠ 2 →
      part_file_name_conditions docName spanText = false) ∧
    (spanText.head? = some '-' →
      part_file_name_conditions docName spanText = false) ∧
    (part_file_name_conditions docName spanText = true →
      (spanText.filter (fun c => c != '-')).any Char.isDigit = true ∧
      (spanText.filter (fun c => c != '-')).any Char.isAlpha = true ∧
      common_prefix_length_diff ((splitOnChar '_' docName).getD 1 [])
        (spanText.filter (fun c => c != '-')) ≤ 2) ∧
    ('_' ∉ docName → part_file_name_conditions docName spanText = false) := by
  refine ⟨?_, ?_, ?_, ?_⟩
  · intro h
    rw [part_file_name_conditions, if_pos h]
  · intro h
    rw [part_file_name_conditions]
    by_cases h1 : (splitOnChar '_' docName).length ≠ 2
    · rw [if_pos h1]
    · rw [if_neg h1, if_pos h]
  · intro h
    rw [part_file_name_conditions] at h
    by_cases h1 : (splitOnChar '_' docName).length ≠ 2
    · rw [if_pos h1] at h; cases h
    · rw [if_neg h1] at h
      by_cases h2 : spanText.head? = some '-'
      · rw [if_pos h2] at h; cases h
      · rw [if_neg h2] at h
        simp only [Bool.and_eq_true, decide_eq_true_eq] at h
        exact ⟨h.1.1, h.1.2, h.2⟩
  · intro h
    have h2 : (splitOnChar '_' docName).length ≠ 2 := by
      rw [splitOnChar_eq_single h, List.length_singleton]
      omega
    rw [part_file_name_conditions, if_pos h2]

/-- Concrete instance of `part_file_name_conditions_spec`: a document name
with no underscore makes the condition fail on any span text. -/
theorem part_file_name_conditions_spec_witness :
    part_file_name_conditions "BC546".data "BC-546B".data = false :=
  (part_file_name_conditions_spec "BC546".data "BC-546B".data).2.2.2
    (by decide)

end FonduerTutorial
